import Mathlib

/-!
Verification of the mesh-demonstration program step-49 (deal.II tutorial).

The file shallowly embeds the routines of `step-49.cc` and, for library
operations the excerpt only calls (grid generators, merge, extrusion,
transform, random distortion), models them from the specification text.
Coordinates are embedded as exact rationals, except where the source uses
transcendental functions (`sin`, `tanh`, `sqrt`), where real numbers are used.
-/

set_option autoImplicit false

namespace Step49

/-! ### Mesh model for `mesh_info` (source lines 50-92)

An active cell is represented by the list of its faces; a face records
whether it lies on the domain boundary and, if so, its boundary indicator.
A triangulation, for the purposes of the boundary-count loop, is the list of
its active cells. -/

/-- One face of a cell, as queried by the loop of `mesh_info`:
`at_boundary` embeds `cell->face(face)->at_boundary()` and
`boundary_ind` embeds the face's boundary indicator. -/
structure Face where
  at_boundary : Bool
  boundary_ind : Nat
  deriving DecidableEq

/-- An active cell: the list of its `GeometryInfo<dim>::faces_per_cell` faces. -/
abbrev Cell : Type := List Face

/-- A triangulation, viewed through its active-cell iterator. -/
abbrev Tria : Type := List (List Face)

/-- An ordered map `std::map<unsigned int, unsigned int>` embedded as an
association list sorted strictly by key; `mapIncr m k` embeds `m[k]++`
(which inserts `k ↦ 0` first when `k` is absent, then increments). -/
def mapIncr : List (Nat × Nat) → Nat → List (Nat × Nat)
  | [], k => [(k, 1)]
  | (a, b) :: rest, k =>
    if k < a then (k, 1) :: (a, b) :: rest
    else if k = a then (a, b + 1) :: rest
    else (a, b) :: mapIncr rest k

/-- Value stored for key `t` (0 when absent), embedding `std::map` lookup
with the default value an absent key maps to. -/
def lookupD : List (Nat × Nat) → Nat → Nat
  | [], _ => 0
  | (a, b) :: rest, t => if t = a then b else lookupD rest t

/-- The keys of the map, in storage (iteration) order. -/
def keysOf (m : List (Nat × Nat)) : List Nat :=
  m.map Prod.fst

/-- Inner loop of `mesh_info` over the faces of one cell (source lines 67-71):
for each face, if it is at the boundary, increment the count of its
boundary indicator. -/
def countFacesInto (m : List (Nat × Nat)) (cell : List Face) : List (Nat × Nat) :=
  cell.foldl (fun m f => if f.at_boundary then mapIncr m f.boundary_ind else m) m

/-- The `boundary_count` map built by `mesh_info` (source lines 61-72):
loop over all active cells, then over each cell's faces. -/
def boundary_count (tria : Tria) : List (Nat × Nat) :=
  tria.foldl countFacesInto []

/-- Spec-side count (from the spec's words, for comparison with
`boundary_count`): the number of boundary faces whose tag equals `t`,
summed over all active cells. -/
def spec_tag_count (tria : Tria) (t : Nat) : Nat :=
  (tria.map (fun cell =>
    cell.countP (fun f => f.at_boundary && f.boundary_ind == t))).sum

/-! #### Lemmas about the ordered map -/

theorem lookupD_eq_zero_of_not_mem (m : List (Nat × Nat)) (t : Nat)
    (h : t ∉ keysOf m) : lookupD m t = 0 := by
  induction m with
  | nil => rfl
  | cons p rest ih =>
    obtain ⟨a, b⟩ := p
    simp only [keysOf, List.map_cons, List.mem_cons] at h
    push_neg at h
    simp only [lookupD, if_neg h.1]
    exact ih (by simpa [keysOf] using h.2)

theorem mapIncr_cons_lt (a b k : Nat) (rest : List (Nat × Nat)) (h : k < a) :
    mapIncr ((a, b) :: rest) k = (k, 1) :: (a, b) :: rest := by
  simp [mapIncr, if_pos h]

theorem mapIncr_cons_self (a b : Nat) (rest : List (Nat × Nat)) :
    mapIncr ((a, b) :: rest) a = (a, b + 1) :: rest := by
  simp [mapIncr]

theorem mapIncr_cons_gt (a b k : Nat) (rest : List (Nat × Nat)) (h : a < k) :
    mapIncr ((a, b) :: rest) k = (a, b) :: mapIncr rest k := by
  have h1 : ¬ k < a := by omega
  have h2 : ¬ k = a := by omega
  simp [mapIncr, if_neg h1, if_neg h2]

theorem mem_keysOf_mapIncr (m : List (Nat × Nat)) (k t : Nat) :
    t ∈ keysOf (mapIncr m k) ↔ t = k ∨ t ∈ keysOf m := by
  induction m with
  | nil => simp [mapIncr, keysOf]
  | cons p rest ih =>
    obtain ⟨a, b⟩ := p
    rcases Nat.lt_trichotomy k a with h1 | h1 | h1
    · rw [mapIncr_cons_lt a b k rest h1]
      simp [keysOf]
    · subst h1
      rw [mapIncr_cons_self k b rest]
      simp [keysOf]
    · rw [mapIncr_cons_gt a b k rest h1]
      simp only [keysOf, List.map_cons, List.mem_cons]
      rw [show List.map Prod.fst (mapIncr rest k) = keysOf (mapIncr rest k) from rfl, ih]
      simp only [keysOf]
      tauto

theorem sortedKeys_mapIncr (m : List (Nat × Nat)) (k : Nat)
    (h : (keysOf m).Pairwise (· < ·)) :
    (keysOf (mapIncr m k)).Pairwise (· < ·) := by
  induction m with
  | nil => simp [mapIncr, keysOf]
  | cons p rest ih =>
    obtain ⟨a, b⟩ := p
    simp only [keysOf, List.map_cons, List.pairwise_cons] at h
    rcases Nat.lt_trichotomy k a with h1 | h1 | h1
    · rw [mapIncr_cons_lt a b k rest h1]
      simp only [keysOf, List.map_cons, List.pairwise_cons]
      refine ⟨?_, h.1, h.2⟩
      intro x hx
      rcases List.mem_cons.mp hx with rfl | hx
      · exact h1
      · exact lt_trans h1 (h.1 x hx)
    · subst h1
      rw [mapIncr_cons_self k b rest]
      simp only [keysOf, List.map_cons, List.pairwise_cons]
      exact h
    · rw [mapIncr_cons_gt a b k rest h1]
      simp only [keysOf, List.map_cons, List.pairwise_cons]
      refine ⟨?_, ih h.2⟩
      intro x hx
      rw [show List.map Prod.fst (mapIncr rest k) = keysOf (mapIncr rest k) from rfl] at hx
      rcases (mem_keysOf_mapIncr rest k x).mp hx with rfl | hx
      · omega
      · exact h.1 x hx

theorem lookupD_mapIncr (m : List (Nat × Nat)) (k t : Nat)
    (h : (keysOf m).Pairwise (· < ·)) :
    lookupD (mapIncr m k) t = lookupD m t + (if t = k then 1 else 0) := by
  induction m with
  | nil =>
    by_cases h' : t = k <;> simp [mapIncr, lookupD, h']
  | cons p rest ih =>
    obtain ⟨a, b⟩ := p
    simp only [keysOf, List.map_cons, List.pairwise_cons] at h
    rcases Nat.lt_trichotomy k a with h1 | h1 | h1
    · rw [mapIncr_cons_lt a b k rest h1]
      simp only [lookupD]
      by_cases ht : t = k
      · subst ht
        have hta : ¬ t = a := by omega
        have htrest : t ∉ keysOf rest := by
          intro hmem
          have := h.1 t hmem
          omega
        simp [if_neg hta, lookupD_eq_zero_of_not_mem rest t htrest]
      · have hak : ¬ a = k := by omega
        by_cases hta : t = a <;> simp [ht, hta, hak]
    · subst h1
      rw [mapIncr_cons_self k b rest]
      simp only [lookupD]
      by_cases hta : t = k
      · subst hta; simp
      · simp [hta]
    · rw [mapIncr_cons_gt a b k rest h1]
      simp only [lookupD]
      by_cases hta : t = a
      · subst hta
        have htk : ¬ t = k := by omega
        simp [htk]
      · simp only [if_neg hta]
        exact ih h.2

theorem mem_keysOf_of_lookupD_pos (m : List (Nat × Nat)) (t : Nat)
    (h : 0 < lookupD m t) : t ∈ keysOf m := by
  induction m with
  | nil => simp [lookupD] at h
  | cons p rest ih =>
    obtain ⟨a, b⟩ := p
    simp only [lookupD] at h
    by_cases hta : t = a
    · simp [keysOf, hta]
    · simp only [if_neg hta] at h
      simp [keysOf, hta]
      have := ih h
      simpa [keysOf] using this

/-! #### Correctness of the nested counting loop -/

theorem countFacesInto_sorted (cell : List Face) (m : List (Nat × Nat))
    (h : (keysOf m).Pairwise (· < ·)) :
    (keysOf (countFacesInto m cell)).Pairwise (· < ·) := by
  induction cell generalizing m with
  | nil => exact h
  | cons f fs ih =>
    simp only [countFacesInto, List.foldl_cons]
    by_cases hb : f.at_boundary
    · simpa [countFacesInto, hb] using ih (mapIncr m f.boundary_ind)
        (sortedKeys_mapIncr m f.boundary_ind h)
    · simpa [countFacesInto, hb] using ih m h

theorem countFacesInto_lookupD (cell : List Face) (m : List (Nat × Nat)) (t : Nat)
    (h : (keysOf m).Pairwise (· < ·)) :
    lookupD (countFacesInto m cell) t =
      lookupD m t + cell.countP (fun f => f.at_boundary && f.boundary_ind == t) := by
  induction cell generalizing m with
  | nil => simp [countFacesInto]
  | cons f fs ih =>
    simp only [countFacesInto, List.foldl_cons] at ih ⊢
    by_cases hb : f.at_boundary
    · rw [if_pos hb, ih (mapIncr m f.boundary_ind) (sortedKeys_mapIncr m f.boundary_ind h),
        lookupD_mapIncr m f.boundary_ind t h]
      have : (f.at_boundary && f.boundary_ind == t) = (f.boundary_ind == t) := by
        simp [hb]
      rw [List.countP_cons, this]
      by_cases ht : f.boundary_ind = t
      · simp [ht]
        omega
      · have ht' : ¬ t = f.boundary_ind := fun hh => ht hh.symm
        simp [ht, ht']
    · rw [if_neg hb, ih m h, List.countP_cons]
      have : (f.at_boundary && f.boundary_ind == t) = false := by
        simp [hb]
      simp [this]

theorem boundary_count_foldl_sorted (tria : Tria) (m : List (Nat × Nat))
    (h : (keysOf m).Pairwise (· < ·)) :
    (keysOf (tria.foldl countFacesInto m)).Pairwise (· < ·) := by
  induction tria generalizing m with
  | nil => exact h
  | cons c rest ih =>
    simpa using ih (countFacesInto m c) (countFacesInto_sorted c m h)

theorem boundary_count_foldl_lookupD (tria : Tria) (m : List (Nat × Nat)) (t : Nat)
    (h : (keysOf m).Pairwise (· < ·)) :
    lookupD (tria.foldl countFacesInto m) t = lookupD m t + spec_tag_count tria t := by
  induction tria generalizing m with
  | nil => simp [spec_tag_count]
  | cons c rest ih =>
    simp only [List.foldl_cons]
    rw [ih (countFacesInto m c) (countFacesInto_sorted c m h),
      countFacesInto_lookupD c m t h]
    simp [spec_tag_count]
    omega

/-- C1: for every mesh, the `boundary_count` histogram built by `mesh_info`
maps each boundary tag to the number of boundary faces of active cells
carrying that tag (one count per active cell owning the face), every tag
occurring on at least one boundary face appears among its keys, and the
tag-count pairs are stored (hence printed) in strictly ascending tag
order. -/
theorem mesh_info_boundary_histogram (tria : Tria) :
    (∀ t, lookupD (boundary_count tria) t = spec_tag_count tria t) ∧
    (∀ t, 0 < spec_tag_count tria t → t ∈ keysOf (boundary_count tria)) ∧
    (keysOf (boundary_count tria)).Pairwise (· < ·) := by
  have hsorted0 : (keysOf ([] : List (Nat × Nat))).Pairwise (· < ·) := by
    simp [keysOf]
  have hval : ∀ t, lookupD (boundary_count tria) t = spec_tag_count tria t := by
    intro t
    have := boundary_count_foldl_lookupD tria [] t hsorted0
    simpa [boundary_count, lookupD] using this
  refine ⟨hval, ?_, ?_⟩
  · intro t ht
    exact mem_keysOf_of_lookupD_pos _ t (by rw [hval t]; exact ht)
  · exact boundary_count_foldl_sorted tria [] hsorted0

/-- Concrete mesh used to witness `mesh_info_boundary_histogram`:
two cells, three boundary faces with tags 3, 1, 3, one interior face. -/
def witness_tria : Tria :=
  [[⟨true, 3⟩, ⟨false, 9⟩], [⟨true, 1⟩, ⟨true, 3⟩]]

theorem mesh_info_boundary_histogram_witness :
    0 < spec_tag_count witness_tria 3 ∧ 3 ∈ keysOf (boundary_count witness_tria) :=
  ⟨by decide, (mesh_info_boundary_histogram witness_tria).2.1 3 (by decide)⟩

/-! ### The vertex-moving loop of `grid_3` (source lines 162-178)

Vertices are stored once in an arena (the triangulation's vertex list) and
cells reference them by index, so `cell->vertex(i)` is a reference into that
arena and writing through it is visible to every cell sharing the vertex.
Coordinates are embedded as exact rationals. -/

/-- A vertex of a 2-D triangulation: a point `(x, y)`. -/
abbrev Vtx : Type := ℚ × ℚ

/-- The selection predicate of the loop, `std::abs(v(1)-1.0) < 1e-5`. -/
def selectsVertex (v : Vtx) : Bool :=
  decide (|v.2 - 1| < (1 / 100000 : ℚ))

/-- The loop body applied to one vertex reference: if the vertex is within
`1e-5` of `y = 1`, move it up by `0.5` (`v(1) += 0.5`), else leave it. -/
def moveVertex (v : Vtx) : Vtx :=
  if |v.2 - 1| < (1 / 100000 : ℚ) then (v.1, v.2 + 1 / 2) else v

/-- Apply `f` to the entry at position `i` of the vertex arena (no effect on
an out-of-range index). -/
def updateAt {α : Type} : List α → Nat → (α → α) → List α
  | [], _, _ => []
  | v :: rest, 0, f => f v :: rest
  | v :: rest, Nat.succ n, f => v :: updateAt rest n f

/-- The double loop of `grid_3`: for every active cell, for every vertex slot
of the cell, conditionally move the referenced vertex.  `cells` lists, per
active cell, the arena indices of its vertices. -/
def grid_3_move_loop (cells : List (List Nat)) (vs : List Vtx) : List Vtx :=
  cells.foldl (fun vs cell => cell.foldl (fun vs i => updateAt vs i moveVertex) vs) vs

/-- Re-running the selection of the loop over a mesh: how many (cell, slot)
pairs reference a vertex satisfying the predicate. -/
def countSelected (cells : List (List Nat)) (vs : List Vtx) : Nat :=
  (cells.map (fun cell => cell.countP (fun i => selectsVertex (vs.getD i (0, 0))))).sum

theorem length_updateAt {α : Type} (l : List α) (i : Nat) (f : α → α) :
    (updateAt l i f).length = l.length := by
  induction l generalizing i with
  | nil => rfl
  | cons v rest ih =>
    cases i with
    | zero => simp [updateAt]
    | succ n => simp [updateAt, ih]

theorem getD_updateAt {α : Type} (l : List α) (i j : Nat) (f : α → α) (d : α)
    (hj : j < l.length) :
    (updateAt l i f).getD j d = if j = i then f (l.getD j d) else l.getD j d := by
  induction l generalizing i j with
  | nil => simp at hj
  | cons v rest ih =>
    cases i with
    | zero =>
      cases j with
      | zero => simp [updateAt]
      | succ m => simp [updateAt]
    | succ n =>
      cases j with
      | zero => simp [updateAt]
      | succ m =>
        simp only [updateAt, List.getD_cons_succ]
        rw [ih n m (by simpa using hj)]
        by_cases hjm : m = n <;> simp [hjm]

theorem selectsVertex_moveVertex (v : Vtx) :
    selectsVertex (moveVertex v) = false := by
  unfold selectsVertex moveVertex
  by_cases h : |v.2 - 1| < (1 / 100000 : ℚ)
  · rw [if_pos h]
    simp only [decide_eq_false_iff_not, not_lt]
    have h' := abs_lt.mp h
    have h2 : (1 / 100000 : ℚ) ≤ v.2 + 1 / 2 - 1 := by linarith
    exact h2.trans (le_abs_self _)
  · rw [if_neg h]
    simpa using h

theorem moveVertex_idem (v : Vtx) :
    moveVertex (moveVertex v) = moveVertex v := by
  have h := selectsVertex_moveVertex v
  unfold selectsVertex at h
  simp only [decide_eq_false_iff_not] at h
  unfold moveVertex
  rw [if_neg (by simpa [moveVertex] using h)]

theorem foldl_move_length (l : List Nat) (vs : List Vtx) :
    (l.foldl (fun vs i => updateAt vs i moveVertex) vs).length = vs.length := by
  induction l generalizing vs with
  | nil => rfl
  | cons j rest ih =>
    simp only [List.foldl_cons]
    rw [ih, length_updateAt]

theorem foldl_move_getD (l : List Nat) (vs : List Vtx) (i : Nat)
    (hi : i < vs.length) :
    (l.foldl (fun vs j => updateAt vs j moveVertex) vs).getD i (0, 0) =
      if i ∈ l then moveVertex (vs.getD i (0, 0)) else vs.getD i (0, 0) := by
  induction l generalizing vs with
  | nil => simp
  | cons j rest ih =>
    simp only [List.foldl_cons]
    rw [ih (updateAt vs j moveVertex) (by rw [length_updateAt]; exact hi)]
    rw [getD_updateAt vs j i moveVertex (0, 0) hi]
    by_cases hij : i = j
    · subst hij
      by_cases hmem : i ∈ rest
      · simp [hmem, moveVertex_idem]
      · simp [hmem]
    · by_cases hmem : i ∈ rest
      · simp [hmem, hij]
      · simp [hmem, hij]

theorem grid_3_loop_length (cells : List (List Nat)) (vs : List Vtx) :
    (grid_3_move_loop cells vs).length = vs.length := by
  unfold grid_3_move_loop
  induction cells generalizing vs with
  | nil => rfl
  | cons c rest ih =>
    simp only [List.foldl_cons]
    rw [ih, foldl_move_length]

theorem grid_3_loop_getD (cells : List (List Nat)) (vs : List Vtx) (i : Nat)
    (hi : i < vs.length) :
    (grid_3_move_loop cells vs).getD i (0, 0) =
      if i ∈ cells.flatten then moveVertex (vs.getD i (0, 0)) else vs.getD i (0, 0) := by
  unfold grid_3_move_loop
  induction cells generalizing vs with
  | nil => simp
  | cons c rest ih =>
    simp only [List.foldl_cons]
    rw [ih (c.foldl (fun vs i => updateAt vs i moveVertex) vs)
      (by rw [foldl_move_length]; exact hi)]
    rw [foldl_move_getD c vs i hi]
    simp only [List.flatten_cons, List.mem_append]
    by_cases hc : i ∈ c
    · by_cases hr : i ∈ rest.flatten
      · simp [hc, hr, moveVertex_idem]
      · simp [hc, hr]
    · by_cases hr : i ∈ rest.flatten
      · simp [hc, hr]
      · simp [hc, hr]

/-- C2: after the `grid_3` loop has moved every vertex whose `y` coordinate
is within `1e-5` of `1.0` upward by `0.5`, re-running the same selection over
the post-move mesh selects zero vertices: a moved vertex no longer satisfies
the predicate, so in particular no vertex shared between cells is moved
twice. -/
theorem grid_3_reselect_empty (cells : List (List Nat)) (vs : List Vtx) :
    countSelected cells (grid_3_move_loop cells vs) = 0 := by
  unfold countSelected
  apply List.sum_eq_zero
  intro x hx
  rcases List.mem_map.mp hx with ⟨cell, hcell, rfl⟩
  rw [List.countP_eq_zero]
  intro i hi
  simp only [Bool.not_eq_true]
  by_cases hlen : i < vs.length
  · rw [grid_3_loop_getD cells vs i hlen]
    have hjoin : i ∈ cells.flatten := List.mem_flatten.mpr ⟨cell, hcell, hi⟩
    rw [if_pos hjoin]
    exact selectsVertex_moveVertex _
  · rw [List.getD_eq_default _ _ (by rw [grid_3_loop_length]; omega)]
    unfold selectsVertex
    norm_num

/-! ### The coordinate transform of `grid_5` (source lines 229-233) -/

/-- `grid_5_transform` (source lines 229-233): returns
`Point<2>(in(0), in(1) + std::sin(in(0)/5.0*3.14159))`.  Note that the source
uses the decimal literal `3.14159`, not the exact constant pi. -/
noncomputable def grid_5_transform (p : ℝ × ℝ) : ℝ × ℝ :=
  (p.1, p.2 + Real.sin (p.1 / 5 * 3.14159))

/-- The `grid_5` transform as the spec words it (for comparison with
`grid_5_transform`): maps `(x, y)` to `(x, y + sin(x·π/5))` with the exact
mathematical constant pi. -/
noncomputable def grid_5_transform_spec (p : ℝ × ℝ) : ℝ × ℝ :=
  (p.1, p.2 + Real.sin (p.1 * Real.pi / 5))

theorem real_lit_pi_lt_pi : (314159 / 100000 : ℝ) < Real.pi := by
  have h := Real.pi_gt_d6
  norm_num at h ⊢
  linarith

/-- C3 counterexample: at the input point `(5, 0)` the transform of the
source differs from the spec's `(x, y + sin(x·π/5))`: the source adds
`sin(3.14159) > 0` while the spec's map adds `sin(π) = 0`. -/
theorem grid_5_transform_pi_counterexample :
    grid_5_transform (5, 0) ≠ grid_5_transform_spec (5, 0) := by
  intro h
  have h2 := congrArg Prod.snd h
  simp only [grid_5_transform, grid_5_transform_spec] at h2
  norm_num at h2
  have hpos : 0 < Real.sin ((314159 : ℝ) / 100000) :=
    Real.sin_pos_of_pos_of_lt_pi (by norm_num) real_lit_pi_lt_pi
  rw [h2] at hpos
  exact lt_irrefl 0 hpos

/-- C3 (amended): the Variant A transform of `grid_5` maps every `(x, y)` to
exactly `(x, y + sin(x·c/5))` where `c = 3.14159` is the decimal literal the
source uses in place of pi. -/
theorem grid_5_transform_eq (x y : ℝ) :
    grid_5_transform (x, y) = (x, y + Real.sin (x * 3.14159 / 5)) := by
  unfold grid_5_transform
  rw [show (x / 5 * 3.14159 : ℝ) = x * 3.14159 / 5 by ring]

/-! ### Error behaviour of `mesh_info` (source lines 86-92) -/

/-- The failure mode of `mesh_info`'s output step. -/
inductive MeshInfoError where
  | cannotOpenOutputFile
  deriving DecidableEq

/-- The console report of `mesh_info`: dimension, active-cell count and the
boundary-tag histogram. -/
structure MeshInfoReport where
  dim : Nat
  n_active_cells : Nat
  histogram : List (Nat × Nat)
  deriving DecidableEq

/-- Modelled from the spec: the EPS output step of `mesh_info`
(`GridOut::write_eps`, whose implementation is not under `src/`) fails with
an I/O error exactly when the output path cannot be opened for writing.  The
counting step is the pure function `boundary_count`; `mesh_info` is embedded
in state-passing style and returns the mesh alongside the report, so that
mutation would be visible in the returned mesh. -/
def mesh_info (dim : Nat) (tria : Tria) (pathWritable : Bool) :
    Except MeshInfoError (MeshInfoReport × Tria) :=
  let hist := boundary_count tria
  if pathWritable then
    Except.ok (⟨dim, tria.length, hist⟩, tria)
  else
    Except.error MeshInfoError.cannotOpenOutputFile

/-- C6: `mesh_info` fails with an I/O error whenever the output path cannot
be opened for writing, and its boundary-face counting step neither mutates
the mesh nor can fail on a valid mesh: with a writable path it always
succeeds, returns the mesh unchanged, and reports the pure count
`boundary_count tria`. -/
theorem mesh_info_error_handling (dim : Nat) (tria : Tria) :
    mesh_info dim tria false = Except.error MeshInfoError.cannotOpenOutputFile ∧
    mesh_info dim tria true = Except.ok (⟨dim, tria.length, boundary_count tria⟩, tria) :=
  ⟨rfl, rfl⟩

/-! ### Boundary-descriptor lifetime in `grid_3` (source lines 187-198) -/

/-- The events of `grid_3` that concern the triangulation's association to
the boundary descriptor. -/
inductive MeshEvent where
  | attach (tag : Nat)
  | refineGlobal (times : Nat)
  | report
  | detach (tag : Nat)
  | destroyDescriptor
  | destroyTriangulation
  deriving DecidableEq

/-- The sequence of such events in `grid_3` (source lines 187-198), in
program order: `set_boundary(1, boundary_description)`, `refine_global(2)`,
`mesh_info`, `set_boundary(1)` (detach), then the destructions mandated by
scope exit — `boundary_description` is declared after `triangulation`, so
C++ destroys it first. -/
def grid_3_events : List MeshEvent :=
  [MeshEvent.attach 1, MeshEvent.refineGlobal 2, MeshEvent.report,
   MeshEvent.detach 1, MeshEvent.destroyDescriptor,
   MeshEvent.destroyTriangulation]

/-- Walk an event list with state (association held?, descriptor alive?);
check that every refinement runs while any held descriptor is alive, and
that the descriptor is not destroyed while the association is still held. -/
def descriptorEventsSafe : Bool → Bool → List MeshEvent → Bool
  | _, _, [] => true
  | _, alive, MeshEvent.attach _ :: rest => descriptorEventsSafe true alive rest
  | _, alive, MeshEvent.detach _ :: rest => descriptorEventsSafe false alive rest
  | attached, alive, MeshEvent.refineGlobal _ :: rest =>
      (!attached || alive) && descriptorEventsSafe attached alive rest
  | attached, _, MeshEvent.destroyDescriptor :: rest =>
      !attached && descriptorEventsSafe attached false rest
  | attached, alive, MeshEvent.report :: rest => descriptorEventsSafe attached alive rest
  | attached, alive, MeshEvent.destroyTriangulation :: rest =>
      descriptorEventsSafe attached alive rest

/-- C8: in `grid_3` the circular boundary descriptor attached to boundary
tag 1 is detached (`set_boundary(1)`) before the descriptor object is
destroyed at scope exit, so along the whole event sequence the triangulation
never holds an association to a destroyed descriptor, in particular during
every refinement. -/
theorem grid_3_descriptor_lifetime :
    descriptorEventsSafe false true grid_3_events = true := by
  decide

/-! ### `GridTools::transform` as used by `grid_5` and `grid_6`
(source lines 236-248 and 277-288) -/

/-- A mesh with its vertex arena, cells referencing vertices by index, and
per-cell face descriptions carrying the boundary tags. -/
structure Mesh2 (P : Type) where
  vertices : List P
  cells : List (List Nat)
  cellFaces : List (List Face)

/-- Modelled from the spec: `GridTools::transform` (not under `src/`)
applies the caller-supplied point map independently to each vertex's current
coordinates; it touches nothing but the vertex coordinates. -/
def transform {P : Type} (f : P → P) (m : Mesh2 P) : Mesh2 P :=
  { m with vertices := m.vertices.map f }

/-- Number of active cells of a `Mesh2`. -/
def n_active_cells {P : Type} (m : Mesh2 P) : Nat :=
  m.cells.length

/-- C9: applying a coordinate transform changes only vertex coordinate
values: the cells (topology), the per-cell faces with their boundary tags,
and the active-cell count are identical before and after, and each vertex's
new coordinates are the map applied exactly once to that vertex's
pre-transform coordinates, independently of the other vertices. -/
theorem transform_frame {P : Type} (f : P → P) (m : Mesh2 P) (d : P) (i : Nat)
    (hi : i < m.vertices.length) :
    (transform f m).cells = m.cells ∧
    (transform f m).cellFaces = m.cellFaces ∧
    n_active_cells (transform f m) = n_active_cells m ∧
    (transform f m).vertices.length = m.vertices.length ∧
    (transform f m).vertices.getD i d = f (m.vertices.getD i d) := by
  refine ⟨rfl, rfl, rfl, by simp [transform], ?_⟩
  unfold transform
  rw [List.getD_eq_getElem _ _ (by simpa using hi), List.getD_eq_getElem _ _ hi]
  simp

/-- Concrete instance witnessing `transform_frame`. -/
def witness_mesh2 : Mesh2 Nat :=
  ⟨[5, 7], [[0, 1]], [[⟨true, 0⟩]]⟩

theorem transform_frame_witness :
    1 < witness_mesh2.vertices.length ∧
    (transform (fun n => n + 1) witness_mesh2).vertices.getD 1 0 =
      (fun n => n + 1) (witness_mesh2.vertices.getD 1 0) :=
  ⟨by decide, (transform_frame (fun n => n + 1) witness_mesh2 0 1 (by decide)).2.2.2.2⟩

/-! ### Merging two triangulations (`grid_2`, source lines 121-138) -/

/-- A mesh as a vertex arena plus cells referencing vertices by index. -/
structure RawMesh (α : Type) where
  vertices : List α
  cells : List (List Nat)

/-- Modelled from the spec: `GridGenerator::merge_triangulations` (not under
`src/`) forms the union of the two inputs' cells and identifies shared
vertices by coordinate equality (no adjacency hint): a vertex of the second
mesh is appended only when no vertex with equal coordinates is already
present, and the second mesh's cells are re-indexed by looking their
vertices up by coordinate in the merged arena. -/
def merge_triangulations {α : Type} [DecidableEq α] [Inhabited α]
    (m1 m2 : RawMesh α) : RawMesh α :=
  let verts := m1.vertices ++ m2.vertices.filter (fun v => decide (v ∉ m1.vertices))
  { vertices := verts,
    cells := m1.cells ++ m2.cells.map (fun c =>
      c.map (fun i => verts.indexOf (m2.vertices.getD i default))) }

/-- C4: when the two input meshes have duplicate-free vertex arenas and agree
exactly on the coordinates of shared vertices (coordinate equality being the
identification used), the merged mesh's active-cell count is the sum of the
two inputs' counts, and at every coordinate where the two inputs shared a
vertex the merged arena holds exactly one vertex — no duplicate. -/
theorem merge_triangulations_correct {α : Type} [DecidableEq α] [Inhabited α]
    (m1 m2 : RawMesh α) (h1 : m1.vertices.Nodup) (p : α)
    (hp1 : p ∈ m1.vertices) (hp2 : p ∈ m2.vertices) :
    (merge_triangulations m1 m2).cells.length = m1.cells.length + m2.cells.length ∧
    (merge_triangulations m1 m2).vertices.count p = 1 := by
  constructor
  · simp [merge_triangulations]
  · unfold merge_triangulations
    simp only [List.count_append]
    have hc1 : m1.vertices.count p = 1 := List.count_eq_one_of_mem h1 hp1
    have hc2 : (m2.vertices.filter (fun v => decide (v ∉ m1.vertices))).count p = 0 := by
      rw [List.count_eq_zero]
      intro hmem
      have := List.of_mem_filter hmem
      simp at this
      exact this hp1
    rw [hc1, hc2]

/-- Concrete pair of meshes sharing the vertices `(1,0)` and `(1,1)`,
witnessing `merge_triangulations_correct` at the shared coordinate `(1,0)`. -/
def witness_merge_m1 : RawMesh (Nat × Nat) :=
  ⟨[(0, 0), (1, 0), (1, 1), (0, 1)], [[0, 1, 2, 3]]⟩

/-- Second mesh of the concrete merge witness. -/
def witness_merge_m2 : RawMesh (Nat × Nat) :=
  ⟨[(1, 0), (2, 0), (2, 1), (1, 1)], [[0, 1, 2, 3]]⟩

theorem merge_triangulations_witness :
    witness_merge_m1.vertices.Nodup ∧
    (1, 0) ∈ witness_merge_m1.vertices ∧ (1, 0) ∈ witness_merge_m2.vertices ∧
    (merge_triangulations witness_merge_m1 witness_merge_m2).cells.length =
      witness_merge_m1.cells.length + witness_merge_m2.cells.length ∧
    (merge_triangulations witness_merge_m1 witness_merge_m2).vertices.count (1, 0) = 1 :=
  ⟨by decide, by decide, by decide,
    (merge_triangulations_correct witness_merge_m1 witness_merge_m2 (by decide)
      (1, 0) (by decide) (by decide)).1,
    (merge_triangulations_correct witness_merge_m1 witness_merge_m2 (by decide)
      (1, 0) (by decide) (by decide)).2⟩

/-! ### Extrusion (`grid_4`, source lines 204-213) -/

/-- One cell of an extruded 3-D mesh: the 2-D cell it came from (its faces,
whose boundary tags the extruded side faces inherit), the layer it lives in,
the heights it spans, and the boundary tags of its two end faces along the
extrusion axis. -/
structure ExtrudedCell where
  layer : Nat
  base : List Face
  zLow : ℚ
  zHigh : ℚ
  endBotTag : Nat
  endTopTag : Nat
  deriving DecidableEq

/-- The boundary tags occurring in a 2-D mesh. -/
def tags2D (m : Tria) : List Nat :=
  (m.flatten.filter (fun f => f.at_boundary)).map (fun f => f.boundary_ind)

/-- First end-cap tag introduced by extrusion: one past the largest 2-D tag. -/
def freshBotTag (m : Tria) : Nat :=
  (tags2D m).foldr max 0 + 1

/-- Second end-cap tag introduced by extrusion. -/
def freshTopTag (m : Tria) : Nat :=
  (tags2D m).foldr max 0 + 2

/-- Modelled from the spec: `GridGenerator::extrude_triangulation` (not under
`src/`): every 2-D active cell is replicated once per layer `k < L`, spanning
heights `kH/L` to `(k+1)H/L`; side faces inherit the 2-D boundary tags, and
the two end caps receive two newly introduced boundary tags, the same pair
for every cell of every layer. -/
def extrude_triangulation (m : Tria) (L : Nat) (H : ℚ) : List ExtrudedCell :=
  (List.range L).flatMap (fun k =>
    m.map (fun c =>
      ⟨k, c, k * H / L, (k + 1) * H / L, freshBotTag m, freshTopTag m⟩))

theorem foldr_max_le_mem (l : List Nat) (t : Nat) (h : t ∈ l) :
    t ≤ l.foldr max 0 := by
  induction l with
  | nil => simp at h
  | cons a rest ih =>
    simp only [List.foldr_cons]
    rcases List.mem_cons.mp h with rfl | h
    · exact le_max_left _ _
    · exact le_trans (ih h) (le_max_right _ _)

theorem length_range_flatMap_map {β : Type} (g : Nat → List Face → β)
    (m : Tria) (L : Nat) :
    ((List.range L).flatMap (fun k => m.map (g k))).length = L * m.length := by
  induction L with
  | zero => simp
  | succ n ih =>
    rw [List.range_succ, List.flatMap_append, List.length_append, ih]
    simp [Nat.succ_mul]

theorem extrude_length (m : Tria) (L : Nat) (H : ℚ) :
    (extrude_triangulation m L H).length = L * m.length := by
  unfold extrude_triangulation
  exact length_range_flatMap_map _ m L

/-- C5: extruding a 2-D mesh with `L` layers over a positive length `H`
yields a mesh with `L` times as many active cells, and the end faces of the
extruded cells carry one of exactly two boundary tags, both newly introduced
(absent from the 2-D mesh's tags), the same pair across all layers. -/
theorem extrude_triangulation_correct (m : Tria) (L : Nat) (H : ℚ)
    (hL : 0 < L) (hH : 0 < H) :
    (extrude_triangulation m L H).length = L * m.length ∧
    freshBotTag m ≠ freshTopTag m ∧
    freshBotTag m ∉ tags2D m ∧
    freshTopTag m ∉ tags2D m ∧
    ∀ c ∈ extrude_triangulation m L H,
      c.endBotTag = freshBotTag m ∧ c.endTopTag = freshTopTag m := by
  refine ⟨extrude_length m L H, ?_, ?_, ?_, ?_⟩
  · unfold freshBotTag freshTopTag
    omega
  · intro hmem
    have := foldr_max_le_mem _ _ hmem
    unfold freshBotTag at this
    omega
  · intro hmem
    have := foldr_max_le_mem _ _ hmem
    unfold freshTopTag at this
    omega
  · intro c hc
    unfold extrude_triangulation at hc
    rcases List.mem_flatMap.mp hc with ⟨k, _, hk⟩
    rcases List.mem_map.mp hk with ⟨c2, _, rfl⟩
    exact ⟨rfl, rfl⟩

theorem extrude_triangulation_witness :
    0 < 3 ∧ (0 : ℚ) < 2 ∧
    (extrude_triangulation witness_tria 3 2).length = 3 * witness_tria.length :=
  ⟨by decide, by norm_num,
    (extrude_triangulation_correct witness_tria 3 2 (by decide) (by norm_num)).1⟩

/-! ### Random distortion (`grid_7`, source lines 299-310) -/

/-- A mesh for the distortion scenario: the vertex arena, a per-vertex flag
recording whether the vertex was detected on the outer boundary of the
original mesh, and the per-vertex local mesh spacing (shortest incident edge
length), both supplied by the surrounding library. -/
structure DistortMesh where
  vertices : List Vtx
  isBoundary : List Bool
  spacing : List ℚ

/-- A linear congruential step, the pseudo-random source of the model. -/
def lcg (s : Nat) : Nat :=
  (1103515245 * s + 12345) % 2147483648

/-- Pseudo-random rational in `[-1/2, 1/2)` derived from seed and index. -/
def randUnit (seed i : Nat) : ℚ :=
  ((lcg (seed + i) % 1000 : Nat) : ℚ) / 1000 - 1 / 2

/-- Modelled from the spec: `GridTools::distort_random` (not under `src/`)
moves each vertex by a pseudo-random offset of magnitude proportional to
`factor` times the local mesh spacing; with `keep_boundary` set, vertices
detected on the original outer boundary are left fixed.  The pseudo-random
source is a pure function of the seed and the vertex index, so equal seeds
reproduce equal coordinates. -/
def distort_random (factor : ℚ) (m : DistortMesh) (keep_boundary : Bool)
    (seed : Nat) : DistortMesh :=
  { m with vertices :=
      (List.range m.vertices.length).map (fun i =>
        let v := m.vertices.getD i (0, 0)
        if keep_boundary && m.isBoundary.getD i false then v
        else (v.1 + factor * m.spacing.getD i 0 * randUnit seed (2 * i),
              v.2 + factor * m.spacing.getD i 0 * randUnit seed (2 * i + 1))) }

/-- C7: with the keep-boundary flag set (as `grid_7` sets it), no vertex
detected on the original outer boundary changes its coordinates under the
random distortion, whatever the seed; only interior vertices may move.  The
distortion is a pure function of the seed, so a fixed seed reproduces the
same coordinates. -/
theorem distort_random_keeps_boundary (factor : ℚ) (m : DistortMesh)
    (seed i : Nat) (hi : i < m.vertices.length)
    (hb : m.isBoundary.getD i false = true) :
    (distort_random factor m true seed).vertices.getD i (0, 0) =
      m.vertices.getD i (0, 0) ∧
    (distort_random factor m true seed).vertices.length = m.vertices.length := by
  constructor
  · unfold distort_random
    rw [List.getD_eq_getElem _ _ (by simpa using hi)]
    simp only [List.getElem_map, List.getElem_range]
    rw [hb]
    simp
  · simp [distort_random]

/-- Concrete mesh witnessing `distort_random_keeps_boundary`: vertex 0 is on
the outer boundary, vertex 1 interior. -/
def witness_distort_mesh : DistortMesh :=
  ⟨[(0, 0), (1, 1)], [true, false], [1, 1]⟩

theorem distort_random_keeps_boundary_witness :
    0 < witness_distort_mesh.vertices.length ∧
    witness_distort_mesh.isBoundary.getD 0 false = true ∧
    (distort_random (3 / 10) witness_distort_mesh true 42).vertices.getD 0 (0, 0) =
      witness_distort_mesh.vertices.getD 0 (0, 0) :=
  ⟨by decide, by decide,
    (distort_random_keeps_boundary (3 / 10) witness_distort_mesh 42 0
      (by decide) (by decide)).1⟩

/-! ### Geometry of the two meshes merged by `grid_2` (source lines 123-135)

`grid_2` builds `hyper_cube_with_cylindrical_hole(tria1, 0.25, 1.0)` and a
3-by-2 `subdivided_hyper_rectangle` from `(1,-1)` to `(4,1)`, then merges
them; the merge is correct only if the vertices both meshes place on the
shared edge `x = 1` coincide exactly. -/

/-- Modelled from the spec: `GridGenerator::hyper_cube_with_cylindrical_hole`
(not under `src/`): the square `[-outer, outer]^2` centered at the origin
with a circular hole of radius `inner`, meshed by eight quadrilaterals whose
outer vertices are the four corners and four edge midpoints of the square
and whose inner vertices lie on the circle in the same eight directions
(axis-aligned and diagonal). -/
noncomputable def hyper_cube_with_cylindrical_hole_vertices
    (inner outer : ℝ) : List (ℝ × ℝ) :=
  [(outer, -outer), (outer, 0), (outer, outer), (0, outer),
   (-outer, outer), (-outer, 0), (-outer, -outer), (0, -outer),
   (inner, 0), (inner * Real.sqrt 2 / 2, inner * Real.sqrt 2 / 2),
   (0, inner), (-(inner * Real.sqrt 2 / 2), inner * Real.sqrt 2 / 2),
   (-inner, 0), (-(inner * Real.sqrt 2 / 2), -(inner * Real.sqrt 2 / 2)),
   (0, -inner), (inner * Real.sqrt 2 / 2, -(inner * Real.sqrt 2 / 2))]

/-- Modelled from the spec: `GridGenerator::subdivided_hyper_rectangle`
(not under `src/`): the `nx`-by-`ny` uniform subdivision of the axis-aligned
rectangle with opposite corners `p0`, `p1`; its vertices are the points of
the uniform grid. -/
noncomputable def subdivided_hyper_rectangle_vertices
    (nx ny : Nat) (p0 p1 : ℝ × ℝ) : List (ℝ × ℝ) :=
  (List.range (nx + 1)).flatMap (fun i =>
    (List.range (ny + 1)).map (fun j =>
      (p0.1 + i * (p1.1 - p0.1) / nx, p0.2 + j * (p1.2 - p0.2) / ny)))

/-- Vertex arena of `tria1` in `grid_2`:
`hyper_cube_with_cylindrical_hole(tria1, 0.25, 1.0)`. -/
noncomputable def grid_2_tria1_vertices : List (ℝ × ℝ) :=
  hyper_cube_with_cylindrical_hole_vertices (1 / 4) 1

/-- Vertex arena of `tria2` in `grid_2`: the 3-by-2 subdivided rectangle
from `(1,-1)` to `(4,1)`. -/
noncomputable def grid_2_tria2_vertices : List (ℝ × ℝ) :=
  subdivided_hyper_rectangle_vertices 3 2 (1, -1) (4, 1)

/-- The three interface points on the shared edge `x = 1`. -/
noncomputable def grid_2_interface : List (ℝ × ℝ) :=
  [(1, -1), (1, 0), (1, 1)]

theorem sqrt_two_lt_two : Real.sqrt 2 < 2 := by
  rw [Real.sqrt_lt' (by norm_num)]
  norm_num

theorem grid_2_tria2_vertices_eq :
    grid_2_tria2_vertices =
      [(1, -1), (1, 0), (1, 1), (2, -1), (2, 0), (2, 1),
       (3, -1), (3, 0), (3, 1), (4, -1), (4, 0), (4, 1)] := by
  unfold grid_2_tria2_vertices subdivided_hyper_rectangle_vertices
  rw [show List.range 4 = [0, 1, 2, 3] from rfl, show List.range 3 = [0, 1, 2] from rfl]
  simp only [List.flatMap_cons, List.flatMap_nil, List.map_cons, List.map_nil,
    List.append_nil, List.cons_append, List.nil_append]
  norm_num

/-- C10: the two meshes built by `grid_2` place their vertices on the shared
edge `x = 1` at exactly the coordinates `(1,-1)`, `(1,0)` and `(1,1)`: every
vertex of either mesh with `x = 1` is one of these three points, and each of
the three is a vertex of both meshes, so no interface vertex of either mesh
lacks an exact counterpart in the other. -/
theorem grid_2_interface_alignment :
    (∀ v ∈ grid_2_tria1_vertices, v.1 = 1 → v ∈ grid_2_interface) ∧
    (∀ v ∈ grid_2_tria2_vertices, v.1 = 1 → v ∈ grid_2_interface) ∧
    (∀ v ∈ grid_2_interface,
      v ∈ grid_2_tria1_vertices ∧ v ∈ grid_2_tria2_vertices) := by
  have hs2 := sqrt_two_lt_two
  have hs0 := Real.sqrt_nonneg 2
  refine ⟨?_, ?_, ?_⟩
  · intro v hv hx
    unfold grid_2_tria1_vertices hyper_cube_with_cylindrical_hole_vertices at hv
    unfold grid_2_interface
    simp only [List.mem_cons, List.not_mem_nil, or_false] at hv ⊢
    rcases hv with rfl | rfl | rfl | rfl | rfl | rfl | rfl | rfl |
      rfl | rfl | rfl | rfl | rfl | rfl | rfl | rfl <;>
      simp only at hx <;> first
      | (norm_num; done)
      | (exfalso; norm_num at hx; done)
      | (exfalso; linarith)
  · intro v hv hx
    rw [grid_2_tria2_vertices_eq] at hv
    unfold grid_2_interface
    simp only [List.mem_cons, List.not_mem_nil, or_false] at hv ⊢
    rcases hv with rfl | rfl | rfl | rfl | rfl | rfl |
      rfl | rfl | rfl | rfl | rfl | rfl <;>
      simp only at hx <;> first
      | (norm_num; done)
      | (exfalso; norm_num at hx; done)
  · intro v hv
    unfold grid_2_interface at hv
    simp only [List.mem_cons, List.not_mem_nil, or_false] at hv
    rcases hv with rfl | rfl | rfl <;>
      constructor <;>
      first
      | (rw [grid_2_tria2_vertices_eq]; norm_num)
      | (unfold grid_2_tria1_vertices hyper_cube_with_cylindrical_hole_vertices;
         norm_num)

theorem grid_2_interface_alignment_witness :
    ((1 : ℝ), (0 : ℝ)) ∈ grid_2_interface ∧
    ((1 : ℝ), (0 : ℝ)) ∈ grid_2_tria1_vertices ∧
    ((1 : ℝ), (0 : ℝ)) ∈ grid_2_tria2_vertices :=
  ⟨by unfold grid_2_interface; norm_num,
    grid_2_interface_alignment.2.2 (1, 0) (by unfold grid_2_interface; norm_num)⟩

end Step49
